import Mathlib

/-
Verification of the inst-efficiency coincidence-statistics pipeline.

The definitions below are a shallow embedding of the Python sources:
  * `src/inst_efficiency/lib/g2lib.py` (`g2_extr`)
  * `src/inst_efficiency/inst_efficiency.py` (`read_pairs`, the peak-locator
    block of `monitor_pairs`, and the long-term accumulator of `monitor_pairs`)
Floating-point values are modelled as rationals; the one genuinely real-valued
quantity (the square root in the average efficiency) is kept out of the
computable core and modelled separately over `ℝ`.  Fallible code is modelled
with `Except`/`Option`: a `.error` is a raised Python exception, and for the
acquisition retry loop `.ok none` means the loop keeps retrying (no value is
ever produced).
-/

deriving instance DecidableEq for Except

namespace IE

/-! ### Python sequence helpers -/

/-- Python `l[i]` for integer `i`: negative indices wrap once from the end,
anything outside `[-len, len)` is an `IndexError` (`none`). -/
def pyGet {α : Type} (l : List α) (i : ℤ) : Option α :=
  if 0 ≤ i then l[i.toNat]?
  else if -(l.length : ℤ) ≤ i then l[(i + l.length).toNat]?
  else none

/-- Normalization of a slice endpoint, as Python does for `l[a:b]`. -/
def pyIndexNorm (n : ℕ) (i : ℤ) : ℕ :=
  if i < 0 then (i + n).toNat else min i.toNat n

/-- Python slice `l[a:b]` (step 1). -/
def pySlice {α : Type} (l : List α) (a b : ℤ) : List α :=
  (l.take (pyIndexNorm l.length b)).drop (pyIndexNorm l.length a)

/-- `np.mean` over a rational list (the empty case, `NaN` in numpy, is never
reached by the claims, which all keep the averaged slice nonempty). -/
def listMean (l : List ℚ) : ℚ := l.sum / l.length

/-! ### Event demultiplexer and delay-histogram builder -/

/-- A parsed raw event stream: `(timestamp in ns, channel bitmask)` pairs,
the output of `parser.read_a1`. -/
abbrev Raw := List (ℚ × ℕ)

/-- `t[(p & (1 << ch)).astype(bool)]`: the timestamps whose mask has bit
`ch` set, in order. -/
def filterChannel (raw : Raw) (ch : ℕ) : List ℚ :=
  (raw.filter (fun e => e.2.testBit ch)).map Prod.fst

/-- Modelled from the spec: `delta_loop` (imported from `S15lib.g2lib.delta`)
is not part of this repository's sources.  Spec §4.2 Delay Histogram Builder:
for every ordered pair where a stop-event time minus a start-event time falls
within `[0, bins*bin_width_ns)`, increment the corresponding bin; ties at a
bin boundary go to the lower bin (half-open upper bound); out-of-window pairs
are silently excluded. -/
def delta_loop (t1 t2 : List ℚ) (bins : ℕ) (bin_width : ℚ) : List ℕ :=
  (List.range bins).map (fun (i : ℕ) =>
    ((t1.flatMap (fun a => t2.map (fun b => b - a))).filter
      (fun d => decide ((i : ℚ) * bin_width ≤ d) && decide (d < ((i : ℚ) + 1) * bin_width))).length)

/-- Result record of `g2_extr` (the `dt` axis array is omitted: no claim
mentions it). -/
structure G2Out where
  hist : List ℕ
  n1 : ℕ
  n2 : ℕ
  t_max : ℚ
deriving DecidableEq

/-- Exceptions raised by `g2_extr`. -/
inductive G2Err where
  | invalidChannel
  | noEvents
deriving DecidableEq

/-- `g2_extr` from `lib/g2lib.py` (file reading replaced by the parsed raw
stream; `normalise=False` as used by `read_pairs`). -/
def g2_extr (raw : Raw) (bins : ℕ) (bin_width : ℚ) (min_range : ℤ)
    (channel_start channel_stop : ℤ) (c_stop_delay : ℚ) : Except G2Err G2Out :=
  if ¬(0 ≤ channel_start ∧ channel_start < 4) then .error .invalidChannel
  else if ¬(0 ≤ channel_stop ∧ channel_stop < 4) then .error .invalidChannel
  else
    let t1 := filterChannel raw channel_start.toNat
    let t2 := filterChannel raw channel_stop.toNat
    if t1 = [] ∧ t2 = [] then .error .noEvents
    else
      let hist := delta_loop t1 (t2.map (fun x => x - (min_range : ℚ) + c_stop_delay)) bins bin_width
      let t_max : ℚ :=
        match raw with
        | [] => 0
        | e :: rest => ((e :: rest).getLastD e).1 - e.1
      .ok ⟨hist, t1.length, t2.length, t_max⟩

/-! ### Pair statistics extractor (`read_pairs`) -/

/-- The parameter record consumed by `read_pairs` (spec §6 Configuration
Source), with the fields the core reads. -/
structure Params where
  width : ℚ
  bins : ℕ
  peak : ℤ
  left : ℤ
  right : ℤ
  time : ℚ
  darkcount1 : ℚ
  darkcount2 : ℚ
  darkcount3 : ℚ
  darkcount4 : ℚ
  ch_start : ℤ
  ch_stop : ℤ
  accumulate : Bool
deriving DecidableEq

/-- The `darkcounts` list built in `read_pairs`. -/
def darkcounts (P : Params) : List ℚ :=
  [P.darkcount1, P.darkcount2, P.darkcount3, P.darkcount4]

/-- `window_size = roffset - loffset + 1`. -/
def window_size (P : Params) : ℤ := P.right - P.left + 1

/-- `acc_start = max(bins // 2, 1)`. -/
def acc_start (P : Params) : ℕ := max (P.bins / 2) 1

/-- `acc = window_size * np.mean(hist[acc_start:])` (the pre-normalization
accidental count). -/
def acc_raw (P : Params) (hist : List ℕ) : ℚ :=
  (window_size P : ℚ) *
    listMean ((pySlice hist (acc_start P : ℤ) (hist.length : ℤ)).map (fun (n : ℕ) => (n : ℚ)))

/-- `pairs = sum(hist[1 : 1 + window_size]) - acc` (the pre-normalization
pair count). -/
def pairs_raw (P : Params) (hist : List ℕ) : ℚ :=
  ((pySlice hist 1 (1 + window_size P)).map (fun (n : ℕ) => (n : ℚ))).sum - acc_raw P hist

/-- Exceptions that can escape one invocation of `read_pairs`. -/
inductive RPErr where
  | invalidChannel
  | noEvents
  | indexError
  | zeroDivision
  | complexMax
deriving DecidableEq

/-- One returned measurement (the average efficiency, the only non-rational
component, is recovered by `sampleEavg` below). -/
structure Sample where
  hist : List ℕ
  inttime : ℚ
  pairs : ℚ
  acc : ℚ
  s1 : ℚ
  s2 : ℚ
  e1 : ℚ
  e2 : ℚ
deriving DecidableEq

/-- The efficiency block of `read_pairs` (lines 212-217).  When both singles
are nonzero and their product is negative, Python evaluates
`(s1 * s2) ** 0.5` to a complex number and `max(..., 0.0)` then raises
`TypeError`: modelled as `.error .complexMax`. -/
def effStage (hist : List ℕ) (inttime pairs acc s1 s2 : ℚ) : Except RPErr (Option Sample) :=
  if s1 = 0 ∨ s2 = 0 then .ok (some ⟨hist, inttime, pairs, acc, s1, s2, 0, 0⟩)
  else if s1 * s2 < 0 then .error .complexMax
  else .ok (some ⟨hist, inttime, pairs, acc, s1, s2,
    max (100 * pairs / s2) 0, max (100 * pairs / s1) 0⟩)

/-- One iteration of the `while True` body of `read_pairs` on the raw data
produced by one acquisition.  `.ok none` means the integration-time check
failed and the loop retries. -/
def readPairsBody (P : Params) (raw : Raw) : Except RPErr (Option Sample) :=
  let channel_start := P.ch_start - 1
  let channel_stop := P.ch_stop - 1
  match pyGet (darkcounts P) channel_start, pyGet (darkcounts P) channel_stop with
  | none, _ => .error .indexError
  | some _, none => .error .indexError
  | some darkcount_start, some darkcount_stop =>
    match g2_extr raw P.bins P.width (P.peak + P.left - 1) channel_start channel_stop 0 with
    | .error .invalidChannel => .error .invalidChannel
    | .error .noEvents => .error .noEvents
    | .ok g =>
      let inttime := g.t_max / 1000000000
      if P.time = 0 then .error .zeroDivision
      else if ¬(3 / 4 < inttime / P.time ∧ inttime / P.time < 2) then .ok none
      else
        let s1 := (g.n1 : ℚ) / inttime - darkcount_start
        let s2 := (g.n2 : ℚ) / inttime - darkcount_stop
        let pairs := pairs_raw P g.hist / inttime
        let acc := acc_raw P g.hist / inttime
        if P.accumulate then
          effStage g.hist inttime (pairs * inttime) (acc * inttime) (s1 * inttime) (s2 * inttime)
        else
          effStage g.hist inttime pairs acc s1 s2

/-- The retry loop of `read_pairs`, fed by the successive acquisitions the
device would produce.  `.ok none` means every available acquisition failed
the integration-time check (the Python loop would still be retrying). -/
def read_pairs (P : Params) : List Raw → Except RPErr (Option Sample)
  | [] => .ok none
  | r :: rest =>
    match readPairsBody P r with
    | .error e => .error e
    | .ok (some s) => .ok (some s)
    | .ok none => read_pairs P rest

/-- `read_pairs(params, use_cache=True)`: no re-trigger, so every iteration
sees the same cached raw data; a failed integration-time check therefore
retries forever (`.ok none`). -/
def read_pairs_cached (P : Params) (raw : Raw) : Except RPErr (Option Sample) :=
  readPairsBody P raw

/-- The average efficiency of a returned sample,
`eavg = max(100 * pairs / (s1 * s2) ** 0.5, 0.0)` (and `0` in the
zero-singles branch), over the reals. -/
noncomputable def sampleEavg (s : Sample) : ℝ :=
  if s.s1 = 0 ∨ s.s2 = 0 then 0
  else max (100 * (s.pairs : ℝ) / Real.sqrt ((s.s1 : ℝ) * (s.s2 : ℝ))) 0

/-! ### Peak locator / window estimator (`monitor_pairs`, lines 255-301) -/

/-- `np.iinfo(np.int64).min`, used as the padding sentinel. -/
def INT_MIN : ℤ := -(2 ^ 63)

/-- `np.append(a, np.resize(INT_MIN, HIST_ROWSIZE - (a.size % HIST_ROWSIZE)))`
with `HIST_ROWSIZE = 10`: the histogram padded with 1 to 10 sentinel values
up to a multiple of 10. -/
def padHist (hist : List ℕ) : List ℤ :=
  hist.map (fun (n : ℕ) => (n : ℤ)) ++ List.replicate (10 - hist.length % 10) INT_MIN

/-- Tail of `np.argmax`: current index, best value, best index. -/
def argmaxAux : List ℤ → ℕ → ℤ → ℕ → ℕ
  | [], _, _, best => best
  | x :: xs, i, bv, best =>
    if bv < x then argmaxAux xs (i + 1) x i else argmaxAux xs (i + 1) bv best

/-- `np.argmax` (first occurrence of the maximum). -/
def argmaxFirst (l : List ℤ) : ℕ :=
  match l with
  | [] => 0
  | x :: xs => argmaxAux xs 1 x 0

/-- Python `max` over a nonempty integer list. -/
def listMax (l : List ℤ) : ℤ :=
  match l with
  | [] => 0
  | x :: xs => xs.foldl max x

/-- Outcome of one of the two `while True` scans of the peak locator. -/
inductive ScanOut where
  | ok : ℕ → ScanOut
  | indexError : ScanOut
  | fuelOut : ScanOut
deriving DecidableEq

/-- One scan of the peak locator (`dir = -1` for the leftward and `dir = 1`
for the rightward loop), with an explicit iteration counter `i` and fuel.
Returns the offset magnitude `i - 1` of the last bin still above threshold
and the list of array positions the loop accessed. -/
def scanAux (a : List ℤ) (thr : ℚ) (p dir : ℤ) : ℕ → ℕ → ScanOut × List ℤ
  | 0, _ => (.fuelOut, [])
  | fuel + 1, i =>
    let pos := p + dir * ((i : ℤ) + 1)
    match pyGet a pos with
    | none => (.indexError, [pos])
    | some v =>
      if thr < (v : ℚ) then
        let r := scanAux a thr p dir fuel (i + 1)
        (r.1, pos :: r.2)
      else (.ok i, [pos])

/-- The data printed by the peak-locator block. -/
structure PeakInfo where
  peakvalue : ℤ
  peakargmax : ℕ
  likely_left : ℤ
  likely_right : ℤ
  likely_window : List ℤ
deriving DecidableEq

/-- The peak-locator block of `monitor_pairs`: pad the histogram, take the
first argmax, scan left and right against `2 * (acc / window_size)`, and
slice the likely window `a[likely_left + peakargmax : likely_right + 1 +
peakargmax]`. -/
def peakLocator (hist : List ℕ) (acc ws : ℚ) (fuel : ℕ) : Option PeakInfo :=
  let a := padHist hist
  let pam := argmaxFirst a
  let acc_bin := acc / ws
  match (scanAux a (2 * acc_bin) (pam : ℤ) (-1) fuel 0).1,
        (scanAux a (2 * acc_bin) (pam : ℤ) 1 fuel 0).1 with
  | .ok li, .ok ri =>
    some ⟨listMax a, pam, -(li : ℤ), (ri : ℤ),
      pySlice a (-(li : ℤ) + pam) ((ri : ℤ) + 1 + pam)⟩
  | _, _ => none

/-! ### Long-term accumulator (`monitor_pairs`, lines 333-363) -/

/-- The per-cycle statistics `monitor_pairs` adds into `longterm_data`. -/
structure CycleStats where
  inttime : ℚ
  pairs : ℚ
  acc : ℚ
  s1 : ℚ
  s2 : ℚ
deriving DecidableEq

/-- The `longterm_data` dictionary. -/
structure LTState where
  count : ℕ
  inttime : ℚ
  pairs : ℚ
  acc : ℚ
  s1 : ℚ
  s2 : ℚ
deriving DecidableEq

/-- The all-zero initial/reset value of `longterm_data`. -/
def LTState.zero : LTState := ⟨0, 0, 0, 0, 0, 0⟩

/-- The per-cycle update block (`longterm_data[...] += ...`). -/
def LTState.add (st : LTState) (c : CycleStats) : LTState :=
  ⟨st.count + 1, st.inttime + c.inttime, st.pairs + c.pairs,
    st.acc + c.acc, st.s1 + c.s1, st.s2 + c.s2⟩

/-- The averaged long-term row cached in `prev` (display time string and
rounding for display are omitted; the third efficiency, the only
non-rational entry, is recovered by `ltRowEavg`). -/
structure LTRow where
  inttime : ℚ
  p : ℚ
  acc : ℚ
  s1 : ℚ
  s2 : ℚ
  e1 : ℚ
  e2 : ℚ
deriving DecidableEq

/-- Exceptions the long-term row construction can raise. -/
inductive LTErr where
  | divByZero
  | complexRound
deriving DecidableEq

/-- The efficiency entries of the long-term row: `100 * p / s2` then
`100 * p / s1`, with no zero guard (Python `ZeroDivisionError`) and no
clamp; a negative `s1 * s2` makes `(s1 * s2) ** 0.5` complex and
`round(..., 1)` then raises `TypeError`. -/
def ltRowEffs (p s1 s2 : ℚ) : Except LTErr (ℚ × ℚ) :=
  if s2 = 0 then .error .divByZero
  else if s1 = 0 then .error .divByZero
  else if s1 * s2 < 0 then .error .complexRound
  else .ok (100 * p / s2, 100 * p / s1)

/-- The average-efficiency entry `100 * p / (s1 * s2) ** 0.5` of the
long-term row, over the reals. -/
noncomputable def ltRowEavg (p s1 s2 : ℚ) : ℝ :=
  100 * (p : ℝ) / Real.sqrt ((s1 : ℝ) * (s2 : ℝ))

/-- One pass of the long-term block for one sample: accumulate, and if the
accumulated integration time has reached `avgtime`, emit the averaged row
and reset. -/
def ltStep (avgtime : ℚ) (st : LTState) (c : CycleStats) : Except LTErr (LTState × Option LTRow) :=
  let st1 := st.add c
  if avgtime ≤ st1.inttime then
    match ltRowEffs (st1.pairs / st1.count) (st1.s1 / st1.count) (st1.s2 / st1.count) with
    | .error e => .error e
    | .ok (e1, e2) =>
      .ok (LTState.zero, some ⟨st1.inttime, st1.pairs / st1.count, st1.acc / st1.count,
        st1.s1 / st1.count, st1.s2 / st1.count, e1, e2⟩)
  else .ok (st1, none)

/-- The long-term block folded over a run of per-cycle samples, collecting
the emitted averaged rows. -/
def ltRun (avgtime : ℚ) : List CycleStats → LTState → Except LTErr (LTState × List LTRow)
  | [], st => .ok (st, [])
  | c :: rest, st =>
    match ltStep avgtime st c with
    | .error e => .error e
    | .ok (st1, row?) =>
      match ltRun avgtime rest st1 with
      | .error e => .error e
      | .ok (st2, rows) => .ok (st2, row?.toList ++ rows)

/-! ### Concrete inputs used by the witnesses -/

/-- A concrete parameter set: 4 bins of width 1 ns, window `[peak, peak]`
with `peak = 1`, channels 1 and 2, 1 ns integration, no dark counts. -/
def P0 : Params := ⟨1, 4, 1, 0, 0, 1 / 1000000000, 0, 0, 0, 0, 1, 2, false⟩

/-- A raw stream with one channel-1 event at 0 ns and one channel-2 event
at 1 ns. -/
def raw0 : Raw := [(0, 1), (1, 2)]

/-- A raw stream whose recorded span (10 ns) fails the integration-time
check against `P0.time = 1 ns`. -/
def rawBad : Raw := [(0, 1), (10, 2)]

/-- The `g2_extr` output on `raw0` with `min_range = 0`. -/
def g0 : G2Out := ⟨[0, 1, 0, 0], 1, 1, 1⟩

/-- The sample `read_pairs` produces from `raw0` under `P0`. -/
def s0 : Sample :=
  ⟨[0, 1, 0, 0], 1 / 1000000000, 1000000000, 0, 1000000000, 1000000000, 100, 100⟩

/-- Two cycles whose integration times (1 s and 1.5 s) cross a 2 s
long-term threshold on the second cycle. -/
def ltL0 : List CycleStats := [⟨1, 2, 0, 4, 4⟩, ⟨3 / 2, 4, 0, 4, 4⟩]

/-- The averaged long-term row emitted after the two cycles of `ltL0`. -/
def ltRow0 : LTRow := ⟨5 / 2, 3, 0, 4, 4, 75, 75⟩

/-- A cycle with a negative pair count (accidental estimate above the raw
window sum), used to exhibit a negative long-term efficiency. -/
def cNeg : CycleStats := ⟨1, -1, 0, 2, 2⟩

/-- The long-term row emitted from `cNeg` alone with threshold 1. -/
def ltRowNeg : LTRow := ⟨1, -1, 0, 2, 2, -50, -50⟩

/-! ### Evaluation of the pipeline on the concrete inputs -/

theorem eval_body_raw0 : readPairsBody P0 raw0 = .ok (some s0) := by
  norm_num [readPairsBody, g2_extr, filterChannel, delta_loop, pyGet, darkcounts,
    pySlice, pyIndexNorm, listMean, acc_raw, pairs_raw, effStage, window_size, acc_start,
    P0, raw0, s0, List.filter, List.flatMap, List.range_succ,
    show Nat.testBit 1 0 = true from by decide, show Nat.testBit 1 1 = false from by decide,
    show Nat.testBit 2 0 = false from by decide, show Nat.testBit 2 1 = true from by decide,
    show Int.toNat 2 = 2 from by decide, show Int.toNat 4 = 4 from by decide]

theorem eval_body_rawBad : readPairsBody P0 rawBad = .ok none := by
  norm_num [readPairsBody, g2_extr, filterChannel, delta_loop, pyGet, darkcounts,
    pySlice, pyIndexNorm, listMean, acc_raw, pairs_raw, effStage, window_size, acc_start,
    P0, rawBad, List.filter, List.flatMap, List.range_succ,
    show Nat.testBit 1 0 = true from by decide, show Nat.testBit 1 1 = false from by decide,
    show Nat.testBit 2 0 = false from by decide, show Nat.testBit 2 1 = true from by decide,
    show Int.toNat 2 = 2 from by decide, show Int.toNat 4 = 4 from by decide]

theorem eval_read_pairs_chain : read_pairs P0 [rawBad, raw0] = .ok (some s0) := by
  simp only [read_pairs, eval_body_rawBad, eval_body_raw0]

theorem eval_g2_raw0 :
    g2_extr raw0 P0.bins P0.width (P0.peak + P0.left - 1)
      (P0.ch_start - 1) (P0.ch_stop - 1) 0 = .ok g0 := by
  norm_num [g2_extr, filterChannel, delta_loop, P0, raw0, g0, List.filter,
    List.flatMap, List.range_succ,
    show Nat.testBit 1 0 = true from by decide, show Nat.testBit 1 1 = false from by decide,
    show Nat.testBit 2 0 = false from by decide, show Nat.testBit 2 1 = true from by decide]

/-! ### Inversion lemmas for the extractor -/

theorem effStage_ok {hist : List ℕ} {inttime pairs acc s1 s2 : ℚ} {s : Sample}
    (h : effStage hist inttime pairs acc s1 s2 = .ok (some s)) :
    s.hist = hist ∧ s.inttime = inttime ∧ s.pairs = pairs ∧ s.acc = acc ∧
    s.s1 = s1 ∧ s.s2 = s2 ∧
    ((s1 = 0 ∨ s2 = 0) → s.e1 = 0 ∧ s.e2 = 0) ∧
    (¬(s1 = 0 ∨ s2 = 0) → 0 ≤ s1 * s2 ∧
      s.e1 = max (100 * pairs / s2) 0 ∧ s.e2 = max (100 * pairs / s1) 0) := by
  unfold effStage at h
  split at h
  · rename_i hzero
    obtain rfl : Sample.mk hist inttime pairs acc s1 s2 0 0 = s := by
      simpa using h
    exact ⟨rfl, rfl, rfl, rfl, rfl, rfl, fun _ => ⟨rfl, rfl⟩, fun hc => absurd hzero hc⟩
  · split at h
    · exact absurd h (by simp)
    · rename_i hzero hneg
      obtain rfl : Sample.mk hist inttime pairs acc s1 s2
          (max (100 * pairs / s2) 0) (max (100 * pairs / s1) 0) = s := by
        simpa using h
      exact ⟨rfl, rfl, rfl, rfl, rfl, rfl, fun hc => absurd hc hzero,
        fun _ => ⟨not_lt.mp hneg, rfl, rfl⟩⟩

theorem readPairsBody_ok_effStage {P : Params} {raw : Raw} {s : Sample}
    (h : readPairsBody P raw = .ok (some s)) :
    ∃ hist inttime pairs acc s1 s2,
      effStage hist inttime pairs acc s1 s2 = .ok (some s) := by
  simp only [readPairsBody] at h
  repeat' split at h
  all_goals first
    | exact absurd h (by simp)
    | exact ⟨_, _, _, _, _, _, h⟩

theorem readPairsBody_ok_bound {P : Params} {raw : Raw} {s : Sample}
    (h : readPairsBody P raw = .ok (some s)) :
    3 / 4 < s.inttime / P.time ∧ s.inttime / P.time < 2 := by
  simp only [readPairsBody] at h
  repeat' split at h
  all_goals first
    | exact absurd h (by simp)
    | · rw [(effStage_ok h).2.1]
        exact not_not.mp (by assumption)

/-! ### C4: the no-events error of `g2_extr` -/

/-- C4: with valid channels, `g2_extr` raises the fatal no-events error
exactly when both demultiplexed channel sequences are empty, and when they
are not both empty it returns a histogram result. -/
theorem g2_extr_no_events_iff (raw : Raw) (bins : ℕ) (bw : ℚ) (mr : ℤ)
    (cs ct : ℤ) (cd : ℚ)
    (hcs : 0 ≤ cs ∧ cs < 4) (hct : 0 ≤ ct ∧ ct < 4) :
    (g2_extr raw bins bw mr cs ct cd = .error .noEvents ↔
      filterChannel raw cs.toNat = [] ∧ filterChannel raw ct.toNat = []) ∧
    (¬(filterChannel raw cs.toNat = [] ∧ filterChannel raw ct.toNat = []) →
      ∃ g, g2_extr raw bins bw mr cs ct cd = .ok g) := by
  unfold g2_extr
  rw [if_neg (not_not_intro hcs), if_neg (not_not_intro hct)]
  by_cases hempty : filterChannel raw cs.toNat = [] ∧ filterChannel raw ct.toNat = []
  · rw [if_pos hempty]
    exact ⟨⟨fun _ => hempty, fun _ => rfl⟩, fun hc => absurd hempty hc⟩
  · rw [if_neg hempty]
    exact ⟨⟨fun hc => absurd hc (by simp), fun hc => absurd hc hempty⟩,
      fun _ => ⟨_, rfl⟩⟩

/-- Witness for C4 at concrete streams: one with events only in channel 2
(both requested channels empty → error), one with a single channel-0 event
(only the stop channel empty → no error). -/
theorem g2_extr_no_events_iff_witness :
    g2_extr [((0 : ℚ), 4)] 4 1 0 0 1 0 = .error .noEvents ∧
    g2_extr [((0 : ℚ), 1)] 4 1 0 0 1 0 ≠ .error .noEvents := by
  constructor
  · exact (g2_extr_no_events_iff [((0 : ℚ), 4)] 4 1 0 0 1 0
      (by decide) (by decide)).1.mpr (by decide)
  · intro hc
    exact absurd ((g2_extr_no_events_iff [((0 : ℚ), 1)] 4 1 0 0 1 0
      (by decide) (by decide)).1.mp hc) (by decide)

/-! ### C9: complex average efficiency on a mixed-sign singles pair -/

/-- C9: when exactly one normalized singles rate is strictly negative and
the other strictly positive, the efficiency block raises (`(s1 * s2) ** 0.5`
is complex and the comparison inside `max` fails), so `read_pairs` never
returns a sample with mixed-sign singles. -/
theorem eff_complex_crash :
    (∀ (hist : List ℕ) (inttime pairs acc s1 s2 : ℚ),
      (s1 < 0 ∧ 0 < s2) ∨ (s2 < 0 ∧ 0 < s1) →
      effStage hist inttime pairs acc s1 s2 = .error .complexMax) ∧
    (∀ (P : Params) (raw : Raw) (s : Sample), readPairsBody P raw = .ok (some s) →
      ¬((s.s1 < 0 ∧ 0 < s.s2) ∨ (s.s2 < 0 ∧ 0 < s.s1))) := by
  constructor
  · intro hist inttime pairs acc s1 s2 hsign
    have h1 : ¬(s1 = 0 ∨ s2 = 0) := by
      rcases hsign with ⟨ha, hb⟩ | ⟨ha, hb⟩
      · exact not_or.mpr ⟨ha.ne, hb.ne'⟩
      · exact not_or.mpr ⟨hb.ne', ha.ne⟩
    have h2 : s1 * s2 < 0 := by
      rcases hsign with ⟨ha, hb⟩ | ⟨ha, hb⟩
      · exact mul_neg_of_neg_of_pos ha hb
      · exact mul_neg_of_pos_of_neg hb ha
    unfold effStage
    rw [if_neg h1, if_pos h2]
  · intro P raw s h hsign
    obtain ⟨hist, inttime, pairs, acc, s1, s2, he⟩ := readPairsBody_ok_effStage h
    obtain ⟨-, -, -, -, h1, h2, hz, hnz⟩ := effStage_ok he
    subst h1; subst h2
    have hzero : ¬(s.s1 = 0 ∨ s.s2 = 0) := by
      rcases hsign with ⟨ha, hb⟩ | ⟨ha, hb⟩
      · exact not_or.mpr ⟨ha.ne, hb.ne'⟩
      · exact not_or.mpr ⟨hb.ne', ha.ne⟩
    have hge : 0 ≤ s.s1 * s.s2 := (hnz hzero).1
    rcases hsign with ⟨ha, hb⟩ | ⟨ha, hb⟩
    · exact absurd hge (not_le.mpr (mul_neg_of_neg_of_pos ha hb))
    · exact absurd hge (not_le.mpr (mul_neg_of_pos_of_neg hb ha))

/-- Witness for C9: a concrete mixed-sign pair crashes the efficiency block,
and the concrete returned sample `s0` has no mixed-sign singles. -/
theorem eff_complex_crash_witness :
    effStage [] 1 1 0 (-1) 1 = .error .complexMax ∧
    ¬((s0.s1 < 0 ∧ 0 < s0.s2) ∨ (s0.s2 < 0 ∧ 0 < s0.s1)) := by
  constructor
  · exact eff_complex_crash.1 [] 1 1 0 (-1) 1 (Or.inl ⟨by norm_num, by norm_num⟩)
  · exact eff_complex_crash.2 P0 raw0 s0 eval_body_raw0

/-! ### C8: determinism of the cached extraction -/

/-- C8: with `use_cache` set (no re-trigger) the extraction is a pure
function of the cached raw data and the parameters: two runs on identical
inputs produce identical results, including the real-valued average
efficiency. -/
theorem read_pairs_cached_deterministic (P Q : Params) (raw raw2 : Raw)
    (hP : P = Q) (hraw : raw = raw2) :
    read_pairs_cached P raw = read_pairs_cached Q raw2 ∧
    ∀ s t, read_pairs_cached P raw = .ok (some s) →
      read_pairs_cached Q raw2 = .ok (some t) →
      s = t ∧ sampleEavg s = sampleEavg t := by
  subst hP; subst hraw
  refine ⟨rfl, fun s t hs ht => ?_⟩
  rw [hs] at ht
  obtain rfl : s = t := by simpa using ht
  exact ⟨rfl, rfl⟩

/-- Witness for C8 at the concrete cached stream `raw0`. -/
theorem read_pairs_cached_deterministic_witness :
    read_pairs_cached P0 raw0 = read_pairs_cached P0 raw0 ∧ s0 = s0 := by
  have h := read_pairs_cached_deterministic P0 P0 raw0 raw0 rfl rfl
  exact ⟨h.1, (h.2 s0 s0 eval_body_raw0 eval_body_raw0).1⟩

/-! ### C3: the integration-time retry loop -/

/-- C3: a sample whose integration time fails `0.75 < actual/duration < 2`
is discarded and the acquisition retried within the same call, the
condition is not surfaced as an error, and any returned sample satisfies
the bound. -/
theorem read_pairs_integration_retry (P : Params) :
    (∀ (acqs : List Raw) (s : Sample), read_pairs P acqs = .ok (some s) →
      3 / 4 < s.inttime / P.time ∧ s.inttime / P.time < 2) ∧
    (∀ (r : Raw) (rest : List Raw), readPairsBody P r = .ok none →
      read_pairs P (r :: rest) = read_pairs P rest) := by
  constructor
  · intro acqs
    induction acqs with
    | nil => intro s h; simp [read_pairs] at h
    | cons r rest ih =>
      intro s h
      rw [read_pairs] at h
      cases hb : readPairsBody P r with
      | error e => rw [hb] at h; simp at h
      | ok o =>
        cases o with
        | none => rw [hb] at h; exact ih s h
        | some t =>
          rw [hb] at h
          obtain rfl : t = s := by simpa using h
          exact readPairsBody_ok_bound hb
  · intro r rest h
    rw [read_pairs, h]

/-- Witness for C3: a run where the first acquisition fails the check and
is retried, and the returned sample `s0` satisfies the bound. -/
theorem read_pairs_integration_retry_witness :
    read_pairs P0 [rawBad, raw0] = read_pairs P0 [raw0] ∧
    (3 / 4 < s0.inttime / P0.time ∧ s0.inttime / P0.time < 2) := by
  refine ⟨(read_pairs_integration_retry P0).2 rawBad [raw0] eval_body_rawBad, ?_⟩
  exact (read_pairs_integration_retry P0).1 [rawBad, raw0] s0 eval_read_pairs_chain

/-! ### Slice lemmas and further inversions -/

theorem pySlice_eq_drop {α : Type} (l : List α) (a : ℤ) (ha : 0 ≤ a) :
    pySlice l a (l.length : ℤ) = l.drop a.toNat := by
  unfold pySlice pyIndexNorm
  rw [if_neg (by omega : ¬(l.length : ℤ) < 0), if_neg (by omega : ¬a < 0)]
  rw [Int.toNat_natCast, min_self, List.take_length]
  rcases le_or_lt a.toNat l.length with h | h
  · rw [min_eq_left h]
  · rw [min_eq_right h.le, List.drop_length, List.drop_eq_nil_of_le h.le]

theorem pySlice_window {α : Type} (l : List α) (w : ℕ) (hw : 1 + w ≤ l.length) :
    pySlice l 1 (1 + (w : ℤ)) = (l.drop 1).take w := by
  unfold pySlice pyIndexNorm
  rw [if_neg (by omega : ¬(1 + (w : ℤ)) < 0), if_neg (by omega : ¬(1 : ℤ) < 0)]
  have h1 : ((1 : ℤ)).toNat = 1 := rfl
  have h2 : (1 + (w : ℤ)).toNat = 1 + w := by omega
  rw [h1, h2, min_eq_left hw, min_eq_left (by omega : 1 ≤ l.length)]
  rw [List.drop_take]
  congr 1
  omega

theorem drop_one_take_one {l : List ℕ} (hl : 2 ≤ l.length) :
    (l.drop 1).take 1 = [l.getD 1 0] := by
  cases l with
  | nil => simp at hl
  | cons a l2 =>
    cases l2 with
    | nil => simp at hl
    | cons b t => rfl

theorem g2_extr_ok_hist_length {raw : Raw} {bins : ℕ} {bw : ℚ} {mr : ℤ}
    {cs ct : ℤ} {cd : ℚ} {g : G2Out}
    (h : g2_extr raw bins bw mr cs ct cd = .ok g) : g.hist.length = bins := by
  simp only [g2_extr] at h
  split at h
  · exact absurd h (by simp)
  · split at h
    · exact absurd h (by simp)
    · split at h
      · exact absurd h (by simp)
      · injection h with h1
        subst h1
        simp only [delta_loop, List.length_map, List.length_range]

theorem readPairsBody_ok_stats {P : Params} {raw : Raw} {s : Sample} {g : G2Out}
    (hg : g2_extr raw P.bins P.width (P.peak + P.left - 1)
      (P.ch_start - 1) (P.ch_stop - 1) 0 = .ok g)
    (hs : readPairsBody P raw = .ok (some s)) :
    s.hist = g.hist ∧ s.inttime = g.t_max / 1000000000 ∧ s.inttime ≠ 0 ∧
    (P.accumulate = false → s.pairs = pairs_raw P g.hist / s.inttime ∧
      s.acc = acc_raw P g.hist / s.inttime) ∧
    (P.accumulate = true → s.pairs = pairs_raw P g.hist / s.inttime * s.inttime ∧
      s.acc = acc_raw P g.hist / s.inttime * s.inttime) := by
  simp only [readPairsBody] at hs
  cases h1 : pyGet (darkcounts P) (P.ch_start - 1) with
  | none => rw [h1] at hs; exact absurd hs (by simp)
  | some dcs =>
    cases h2 : pyGet (darkcounts P) (P.ch_stop - 1) with
    | none => rw [h1, h2] at hs; dsimp only [] at hs; exact absurd hs (by simp)
    | some dct =>
      rw [h1, h2] at hs
      dsimp only [] at hs
      rw [hg] at hs
      dsimp only [] at hs
      split at hs
      · exact absurd hs (by simp)
      · split at hs
        · exact absurd hs (by simp)
        · rename_i htime hbound
          have hb := not_not.mp hbound
          have hnz : g.t_max / 1000000000 ≠ 0 := by
            intro h0
            rw [h0] at hb
            rw [zero_div] at hb
            exact absurd hb.1 (by norm_num)
          split at hs
          · rename_i hacct
            obtain ⟨hh, hi, hp, ha, -, -, -, -⟩ := effStage_ok hs
            exact ⟨hh, hi, by rw [hi]; exact hnz,
              fun hf => absurd hacct (by simp [hf]),
              fun _ => ⟨by rw [hp, hi], by rw [ha, hi]⟩⟩
          · rename_i haccf
            obtain ⟨hh, hi, hp, ha, -, -, -, -⟩ := effStage_ok hs
            exact ⟨hh, hi, by rw [hi]; exact hnz,
              fun _ => ⟨by rw [hp, hi], by rw [ha, hi]⟩,
              fun ht => absurd ht haccf⟩

/-! ### C1: the windowed pair-statistics formulas -/

/-- C1: `read_pairs` builds its histogram with `min_range = peak + left - 1`,
its accidental count is `window_size` times the mean of the histogram bins
from `max(bins // 2, 1)` to the end, its pre-normalization pair count is the
sum of bins 1 through `window_size` minus that accidental count, and with
`left = right = 0` the pair count is bin 1 minus the tail mean. -/
theorem read_pairs_histogram_and_pair_formula (P : Params) (raw : Raw)
    (g : G2Out) (s : Sample)
    (hlr : P.left ≤ P.right) (hbins : 2 ≤ P.bins)
    (hws : (window_size P).toNat ≤ P.bins - 1)
    (hg : g2_extr raw P.bins P.width (P.peak + P.left - 1)
      (P.ch_start - 1) (P.ch_stop - 1) 0 = .ok g)
    (hs : readPairsBody P raw = .ok (some s)) :
    s.hist = g.hist ∧
    acc_raw P g.hist = (window_size P : ℚ) *
      listMean ((g.hist.drop (max (P.bins / 2) 1)).map (fun (n : ℕ) => (n : ℚ))) ∧
    pairs_raw P g.hist =
      (((g.hist.drop 1).take (window_size P).toNat).map (fun (n : ℕ) => (n : ℚ))).sum -
        acc_raw P g.hist ∧
    (P.left = 0 → P.right = 0 →
      pairs_raw P g.hist = (g.hist.getD 1 0 : ℚ) -
        listMean ((g.hist.drop (max (P.bins / 2) 1)).map (fun (n : ℕ) => (n : ℚ)))) ∧
    (P.accumulate = false → s.pairs = pairs_raw P g.hist / s.inttime) ∧
    (P.accumulate = true → s.pairs = pairs_raw P g.hist) := by
  have hlen : g.hist.length = P.bins := g2_extr_ok_hist_length hg
  obtain ⟨hh, hi, hnz, hfalse, htrue⟩ := readPairsBody_ok_stats hg hs
  have hwnn : 0 ≤ window_size P := by unfold window_size; omega
  have hacc : acc_raw P g.hist = (window_size P : ℚ) *
      listMean ((g.hist.drop (max (P.bins / 2) 1)).map (fun (n : ℕ) => (n : ℚ))) := by
    unfold acc_raw
    rw [pySlice_eq_drop g.hist (acc_start P : ℤ) (by positivity)]
    rw [Int.toNat_natCast]
    rfl
  have hpairs : pairs_raw P g.hist =
      (((g.hist.drop 1).take (window_size P).toNat).map (fun (n : ℕ) => (n : ℚ))).sum -
        acc_raw P g.hist := by
    unfold pairs_raw
    have hcast : (1 : ℤ) + window_size P = 1 + ((window_size P).toNat : ℤ) := by omega
    rw [hcast, pySlice_window g.hist (window_size P).toNat (by omega)]
  refine ⟨hh, hacc, hpairs, ?_, fun hf => ?_, fun ht => ?_⟩
  · intro hl hr
    have hws1 : window_size P = 1 := by unfold window_size; omega
    rw [hpairs, hacc, hws1]
    rw [show ((1 : ℤ)).toNat = 1 from rfl]
    rw [drop_one_take_one (by omega)]
    simp only [List.map_cons, List.map_nil, List.sum_cons, List.sum_nil,
      Int.cast_one, one_mul]
    ring
  · rw [(hfalse hf).1]
  · rw [(htrue ht).1, div_mul_cancel₀ _ hnz]

/-- Witness for C1 at the concrete acquisition `raw0` under `P0`. -/
theorem read_pairs_histogram_and_pair_formula_witness :
    s0.hist = g0.hist ∧ s0.pairs = pairs_raw P0 g0.hist / s0.inttime := by
  have h := read_pairs_histogram_and_pair_formula P0 raw0 g0 s0
    (by decide) (by decide) (by decide) eval_g2_raw0 eval_body_raw0
  exact ⟨h.1, h.2.2.2.2.1 rfl⟩

/-! ### C2: the per-sample efficiency formulas -/

/-- C2: for every sample returned by `read_pairs`, a zero singles rate
forces all three efficiencies to zero, and otherwise
`eff1 = max(0, 100*pairs/s2)`, `eff2 = max(0, 100*pairs/s1)` and
`eff_avg = max(0, 100*pairs/sqrt(s1*s2))`, with no clamp above 100. -/
theorem read_pairs_efficiency_formula (P : Params) (raw : Raw) (s : Sample)
    (h : readPairsBody P raw = .ok (some s)) :
    ((s.s1 = 0 ∨ s.s2 = 0) → s.e1 = 0 ∧ s.e2 = 0 ∧ sampleEavg s = 0) ∧
    (s.s1 ≠ 0 → s.s2 ≠ 0 →
      s.e1 = max 0 (100 * s.pairs / s.s2) ∧
      s.e2 = max 0 (100 * s.pairs / s.s1) ∧
      sampleEavg s = max 0 (100 * (s.pairs : ℝ) / Real.sqrt ((s.s1 : ℝ) * (s.s2 : ℝ)))) := by
  obtain ⟨hist, inttime, pairs, acc, s1, s2, he⟩ := readPairsBody_ok_effStage h
  obtain ⟨-, -, hp, -, h1, h2, hz, hnz⟩ := effStage_ok he
  subst h1; subst h2; subst hp
  constructor
  · intro hzero
    refine ⟨(hz hzero).1, (hz hzero).2, ?_⟩
    simp only [sampleEavg, if_pos hzero]
  · intro ha hb
    have hno : ¬(s.s1 = 0 ∨ s.s2 = 0) := not_or.mpr ⟨ha, hb⟩
    obtain ⟨-, he1, he2⟩ := hnz hno
    refine ⟨by rw [he1, max_comm], by rw [he2, max_comm], ?_⟩
    rw [sampleEavg, if_neg hno, max_comm]

/-- Witness for C2 at the concrete sample `s0` (both singles nonzero). -/
theorem read_pairs_efficiency_formula_witness :
    s0.e1 = max 0 (100 * s0.pairs / s0.s2) ∧
    sampleEavg s0 = max 0 (100 * (s0.pairs : ℝ) / Real.sqrt ((s0.s1 : ℝ) * (s0.s2 : ℝ))) := by
  have h := (read_pairs_efficiency_formula P0 raw0 s0 eval_body_raw0).2
    (by norm_num [s0]) (by norm_num [s0])
  exact ⟨h.1, h.2.2⟩

/-! ### C10: the unguarded long-term efficiencies -/

/-- C10: the long-term row's efficiencies carry no zero-singles guard and
no `max(0, ...)` clamp: a zero averaged `s2` at reset time raises a
division-by-zero error (which aborts the monitor loop), and an emitted
row's efficiency is exactly `100*p/s2` (resp. `100*p/s1`), which is
negative whenever the averaged pair count is negative. -/
theorem longterm_row_no_guard (avgtime : ℚ) (st : LTState) (c : CycleStats) :
    (avgtime ≤ (st.add c).inttime → (st.add c).s2 / ((st.add c).count : ℚ) = 0 →
      ltStep avgtime st c = .error .divByZero) ∧
    (∀ st1 row, ltStep avgtime st c = .ok (st1, some row) →
      row.e1 = 100 * row.p / row.s2 ∧ row.e2 = 100 * row.p / row.s1 ∧
      (row.p < 0 → 0 < row.s2 → row.e1 < 0)) ∧
    (∀ (rest : List CycleStats) (e : LTErr), ltStep avgtime st c = .error e →
      ltRun avgtime (c :: rest) st = .error e) := by
  refine ⟨?_, ?_, ?_⟩
  · intro htrig hzero
    simp only [ltStep]
    rw [if_pos htrig]
    simp only [ltRowEffs]
    rw [if_pos hzero]
  · intro st1 row h
    simp only [ltStep] at h
    split at h
    · split at h
      · exact absurd h (by simp)
      · rename_i hre
        simp only [Except.ok.injEq, Prod.mk.injEq] at h
        obtain ⟨-, hrow⟩ := h
        obtain rfl : LTRow.mk (st.add c).inttime ((st.add c).pairs / ((st.add c).count : ℚ))
            ((st.add c).acc / ((st.add c).count : ℚ)) ((st.add c).s1 / ((st.add c).count : ℚ))
            ((st.add c).s2 / ((st.add c).count : ℚ)) _ _ = row := by
          simpa using hrow
        simp only [ltRowEffs] at hre
        split at hre
        · exact absurd hre (by simp)
        · split at hre
          · exact absurd hre (by simp)
          · split at hre
            · exact absurd hre (by simp)
            · obtain ⟨rfl, rfl⟩ : _ ∧ _ := by simpa using hre
              refine ⟨rfl, rfl, fun hp hs2 => ?_⟩
              exact div_neg_of_neg_of_pos (by nlinarith) hs2
    · exact absurd h (by simp)
  · intro rest e h
    simp only [ltRun, h]

/-! ### Peak-locator lemmas -/

theorem getD_append_replicate_mid {α : Type} (x d N : α) (k : ℕ) (rest : List α) :
    (List.replicate k N ++ x :: rest).getD k d = x := by
  induction k with
  | zero => rfl
  | succ j ih => simpa [List.replicate_succ] using ih

theorem getD_append_replicate_lt {α : Type} (x d N : α) (k j : ℕ) (hj : j < k)
    (rest : List α) : (List.replicate k N ++ x :: rest).getD j d = N := by
  induction j generalizing k with
  | zero =>
    cases k with
    | zero => omega
    | succ k2 => simp [List.replicate_succ]
  | succ j2 ih =>
    cases k with
    | zero => omega
    | succ k2 => simpa [List.replicate_succ] using ih k2 (by omega)

theorem getD_append_replicate_succ {α : Type} (x d N : α) (k : ℕ) (rest : List α) :
    (List.replicate k N ++ x :: rest).getD (k + 1) d = rest.getD 0 d := by
  induction k with
  | zero => rfl
  | succ j ih => simpa [List.replicate_succ] using ih

theorem pyGet_padHist (hist : List ℕ) (j : ℕ) (hj : j < hist.length) :
    pyGet (padHist hist) (j : ℤ) = some ((hist.getD j 0 : ℕ) : ℤ) := by
  unfold pyGet
  rw [if_pos (by omega : (0 : ℤ) ≤ (j : ℤ)), Int.toNat_natCast]
  unfold padHist
  rw [List.getElem?_append_left (by simpa using hj)]
  rw [List.getElem?_map]
  rw [List.getElem?_eq_getElem hj]
  rw [List.getD_eq_getElem hist 0 hj]
  rfl

theorem argmaxAux_all_le : ∀ (xs : List ℤ) (i : ℕ) (bv : ℤ) (best : ℕ),
    (∀ x ∈ xs, x ≤ bv) → argmaxAux xs i bv best = best := by
  intro xs
  induction xs with
  | nil => intro i bv best hle; rfl
  | cons x xs2 ih =>
    intro i bv best hle
    unfold argmaxAux
    rw [if_neg (not_lt.mpr (hle x (List.mem_cons_self _ _)))]
    exact ih (i + 1) bv best (fun y hy => hle y (List.mem_cons_of_mem x hy))

theorem argmaxAux_replicate (N H : ℤ) (hNH : N < H) (rest : List ℤ)
    (hrest : ∀ x ∈ rest, x ≤ H) :
    ∀ (j i best : ℕ), argmaxAux (List.replicate j N ++ H :: rest) i N best = i + j := by
  intro j
  induction j with
  | zero =>
    intro i best
    simp only [List.replicate, List.nil_append]
    unfold argmaxAux
    rw [if_pos hNH, argmaxAux_all_le rest (i + 1) H i hrest]
    omega
  | succ j2 ih =>
    intro i best
    rw [List.replicate_succ, List.cons_append]
    unfold argmaxAux
    rw [if_neg (lt_irrefl N), ih (i + 1) best]
    omega

theorem argmaxFirst_spike (N H : ℤ) (hNH : N < H) (k : ℕ) (rest : List ℤ)
    (hrest : ∀ x ∈ rest, x ≤ H) :
    argmaxFirst (List.replicate k N ++ H :: rest) = k := by
  cases k with
  | zero =>
    simp only [List.replicate, List.nil_append]
    unfold argmaxFirst
    exact argmaxAux_all_le rest 1 H 0 hrest
  | succ j =>
    rw [List.replicate_succ, List.cons_append]
    unfold argmaxFirst
    dsimp only []
    rw [argmaxAux_replicate N H hNH rest hrest j 1 0]
    omega

theorem foldl_max_le : ∀ (xs : List ℤ) (a H : ℤ), a ≤ H → (∀ x ∈ xs, x ≤ H) →
    xs.foldl max a ≤ H := by
  intro xs
  induction xs with
  | nil => intro a H ha hx; exact ha
  | cons x xs2 ih =>
    intro a H ha hx
    exact ih (max a x) H (max_le ha (hx x (List.mem_cons_self _ _)))
      (fun y hy => hx y (List.mem_cons_of_mem x hy))

theorem le_foldl_max_init : ∀ (xs : List ℤ) (a : ℤ), a ≤ xs.foldl max a := by
  intro xs
  induction xs with
  | nil => intro a; exact le_refl a
  | cons x xs2 ih =>
    intro a
    exact le_trans (le_max_left a x) (ih (max a x))

theorem le_foldl_max_mem : ∀ (xs : List ℤ) (a x : ℤ), x ∈ xs → x ≤ xs.foldl max a := by
  intro xs
  induction xs with
  | nil => intro a x hx; exact absurd hx (List.not_mem_nil x)
  | cons y ys ih =>
    intro a x hx
    rcases List.mem_cons.mp hx with rfl | hx2
    · exact le_trans (le_max_right a x) (le_foldl_max_init ys (max a x))
    · exact ih (max a y) x hx2

theorem listMax_spike (N H : ℤ) (hNH : N ≤ H) (k : ℕ) (rest : List ℤ)
    (hrest : ∀ x ∈ rest, x ≤ H) :
    listMax (List.replicate k N ++ H :: rest) = H := by
  have hall : ∀ x ∈ List.replicate k N ++ H :: rest, x ≤ H := by
    intro x hx
    rcases List.mem_append.mp hx with hx2 | hx2
    · rw [List.eq_of_mem_replicate hx2]; exact hNH
    · rcases List.mem_cons.mp hx2 with rfl | hx3
      · exact le_refl x
      · exact hrest x hx3
  have hmem : H ∈ List.replicate k N ++ H :: rest :=
    List.mem_append.mpr (Or.inr (List.mem_cons_self _ _))
  cases k with
  | zero =>
    simp only [List.replicate, List.nil_append]
    unfold listMax
    refine le_antisymm (foldl_max_le rest H H (le_refl H) hrest) (le_foldl_max_init rest H)
  | succ j =>
    rw [List.replicate_succ, List.cons_append]
    unfold listMax
    refine le_antisymm (foldl_max_le _ N H hNH ?_) (le_foldl_max_mem _ N H ?_)
    · intro x hx
      exact hall x (List.mem_cons_of_mem N hx)
    · exact List.mem_append.mpr (Or.inr (List.mem_cons_self _ _))

theorem pySlice_singleton {α : Type} (l : List α) (k : ℕ) (d : α) (hk : k < l.length) :
    pySlice l (k : ℤ) ((k : ℤ) + 1) = [l.getD k d] := by
  unfold pySlice pyIndexNorm
  rw [if_neg (by omega : ¬((k : ℤ) + 1) < 0), if_neg (by omega : ¬(k : ℤ) < 0)]
  rw [show ((k : ℤ) + 1).toNat = k + 1 by omega, Int.toNat_natCast]
  rw [min_eq_left (by omega : k + 1 ≤ l.length), min_eq_left (by omega : k ≤ l.length)]
  rw [List.drop_take, show k + 1 - k = 1 from by omega,
    List.take_one_drop_eq_of_lt_length hk]
  rw [List.getD_eq_getElem l d hk]
  rfl

/-! ### C7: the scans have no bound check at the histogram edges -/

theorem scanAux_left_reaches (a : List ℤ) (thr : ℚ) (p : ℕ)
    (hvals : ∀ j : ℕ, j < p → ∃ v, pyGet a (j : ℤ) = some v ∧ thr < (v : ℚ)) :
    ∀ (fuel i : ℕ), i ≤ p → p - i < fuel →
      (-1 : ℤ) ∈ (scanAux a thr (p : ℤ) (-1) fuel i).2 := by
  intro fuel
  induction fuel with
  | zero => intro i hi hf; omega
  | succ f ih =>
    intro i hi hf
    by_cases hip : i = p
    · subst hip
      have hpos : (i : ℤ) + (-1) * ((i : ℤ) + 1) = -1 := by ring
      simp only [scanAux, hpos]
      cases pyGet a (-1 : ℤ) with
      | none => simp
      | some v =>
        dsimp only []
        split
        · simp
        · simp
    · have hilt : i < p := lt_of_le_of_ne hi hip
      have hpos : (p : ℤ) + (-1) * ((i : ℤ) + 1) = ((p - i - 1 : ℕ) : ℤ) := by
        push_cast [Nat.cast_sub (by omega : 1 ≤ p - i), Nat.cast_sub (by omega : i ≤ p)]
        ring
      obtain ⟨v, hv, hthr⟩ := hvals (p - i - 1) (by omega)
      simp only [scanAux, hpos, hv]
      rw [if_pos hthr]
      exact List.mem_cons_of_mem _ (ih (i + 1) (by omega) (by omega))

theorem scanAux_right_reaches (a : List ℤ) (thr : ℚ) (p L : ℕ)
    (hvals : ∀ j : ℕ, p < j → j < L → ∃ v, pyGet a (j : ℤ) = some v ∧ thr < (v : ℚ)) :
    ∀ (fuel i : ℕ), p + i < L → L - (p + i) ≤ fuel →
      ((L : ℕ) : ℤ) ∈ (scanAux a thr (p : ℤ) 1 fuel i).2 := by
  intro fuel
  induction fuel with
  | zero => intro i hi hf; omega
  | succ f ih =>
    intro i hi hf
    by_cases hL : p + i + 1 = L
    · have hpos : (p : ℤ) + 1 * ((i : ℤ) + 1) = ((L : ℕ) : ℤ) := by
        push_cast [← hL]; ring
      simp only [scanAux, hpos]
      cases pyGet a ((L : ℕ) : ℤ) with
      | none => simp
      | some v =>
        dsimp only []
        split
        · simp
        · simp
    · have hpos : (p : ℤ) + 1 * ((i : ℤ) + 1) = ((p + i + 1 : ℕ) : ℤ) := by
        push_cast; ring
      obtain ⟨v, hv, hthr⟩ := hvals (p + i + 1) (by omega) (by omega)
      simp only [scanAux, hpos, hv]
      rw [if_pos hthr]
      exact List.mem_cons_of_mem _ (ih (i + 1) (by omega) (by omega))

/-- C7: the peak locator's scans carry no bound check against the
histogram's edges: when every bin strictly left of the peak position
exceeds the threshold, the leftward scan accesses position `-1` (before
the histogram's start), and when every bin strictly right of it does, the
rightward scan accesses position `hist.length` (past the histogram's
end) — neither scan clamps at the array bounds. -/
theorem peak_scan_unbounded (hist : List ℕ) (thr : ℚ) (p fuelL fuelR : ℕ)
    (hp : p < hist.length) :
    ((∀ j, j < p → thr < ((hist.getD j 0 : ℕ) : ℚ)) → p < fuelL →
      (-1 : ℤ) ∈ (scanAux (padHist hist) thr (p : ℤ) (-1) fuelL 0).2) ∧
    ((∀ j, p < j → j < hist.length → thr < ((hist.getD j 0 : ℕ) : ℚ)) →
      hist.length - p ≤ fuelR →
      ((hist.length : ℕ) : ℤ) ∈ (scanAux (padHist hist) thr (p : ℤ) 1 fuelR 0).2) := by
  constructor
  · intro hv hf
    refine scanAux_left_reaches (padHist hist) thr p (fun j hj => ?_) fuelL 0
      (by omega) (by omega)
    refine ⟨((hist.getD j 0 : ℕ) : ℤ), pyGet_padHist hist j (by omega), ?_⟩
    push_cast
    exact hv j hj
  · intro hv hf
    refine scanAux_right_reaches (padHist hist) thr p hist.length
      (fun j hj1 hj2 => ?_) fuelR 0 (by omega) (by omega)
    refine ⟨((hist.getD j 0 : ℕ) : ℤ), pyGet_padHist hist j hj2, ?_⟩
    push_cast
    exact hv j hj1 hj2

/-- Witness for C7: on the all-above-threshold histogram `[1, 1, 1]` with
peak position 1 and threshold 0, the leftward scan reads index `-1` and
the rightward scan reads index 3 = length. -/
theorem peak_scan_unbounded_witness :
    (-1 : ℤ) ∈ (scanAux (padHist [1, 1, 1]) 0 (1 : ℤ) (-1) 2 0).2 ∧
    (3 : ℤ) ∈ (scanAux (padHist [1, 1, 1]) 0 (1 : ℤ) 1 2 0).2 := by
  have h := peak_scan_unbounded [1, 1, 1] 0 1 2 2 (by norm_num)
  constructor
  · refine h.1 (fun j hj => ?_) (by norm_num)
    obtain rfl : j = 0 := by omega
    norm_num
  · refine h.2 (fun j hj1 hj2 => ?_) (by norm_num)
    obtain rfl : j = 2 := by
      simp only [List.length_cons, List.length_nil] at hj2
      omega
    norm_num

/-! ### C5: the peak locator on an isolated spike -/

/-- C5: the peak locator takes the first argmax, scans outward while bins
strictly exceed twice the accidental-per-bin estimate, and returns the
inclusive slice `[peak+likely_left, peak+likely_right]`; on an isolated
spike of height `H > 2N` over flat noise `N` with `acc/ws = N`, both scans
stop immediately, `likely_left = likely_right = 0`, and the likely window
is exactly the spike bin. -/
theorem peak_locator_spike (N H k m : ℕ) (acc ws : ℚ) (fuel : ℕ)
    (hacc : acc / ws = (N : ℚ)) (hNH : 2 * N < H) (hk : 1 ≤ k) (hm : 1 ≤ m)
    (hfuel : 1 ≤ fuel) :
    peakLocator (List.replicate k N ++ H :: List.replicate m N) acc ws fuel =
      some ⟨(H : ℤ), k, 0, 0, [(H : ℤ)]⟩ := by
  obtain ⟨f, rfl⟩ : ∃ f, fuel = f + 1 := ⟨fuel - 1, by omega⟩
  set hist : List ℕ := List.replicate k N ++ H :: List.replicate m N with hhist
  have hlen : hist.length = k + 1 + m := by simp [hhist]; omega
  have hsplit : padHist hist =
      List.replicate k ((N : ℕ) : ℤ) ++ ((H : ℕ) : ℤ) ::
        (List.replicate m ((N : ℕ) : ℤ) ++
          List.replicate (10 - hist.length % 10) INT_MIN) := by
    simp [padHist, hhist, List.map_append, List.map_replicate]
  have hNHZ : ((N : ℕ) : ℤ) < ((H : ℕ) : ℤ) := by
    have : N < H := by omega
    exact_mod_cast this
  have htail : ∀ x ∈ List.replicate m ((N : ℕ) : ℤ) ++
      List.replicate (10 - hist.length % 10) INT_MIN, x ≤ ((H : ℕ) : ℤ) := by
    intro x hx
    rcases List.mem_append.mp hx with hx2 | hx2
    · rw [List.eq_of_mem_replicate hx2]; exact le_of_lt hNHZ
    · rw [List.eq_of_mem_replicate hx2]
      unfold INT_MIN
      have : (0 : ℤ) ≤ ((H : ℕ) : ℤ) := by omega
      omega
  have hpam : argmaxFirst (padHist hist) = k := by
    rw [hsplit]
    exact argmaxFirst_spike _ _ hNHZ k _ htail
  have hmax : listMax (padHist hist) = ((H : ℕ) : ℤ) := by
    rw [hsplit]
    exact listMax_spike _ _ (le_of_lt hNHZ) k _ htail
  have hthr : 2 * (acc / ws) = 2 * (N : ℚ) := by rw [hacc]
  have hgetL : hist.getD (k - 1) 0 = N := by
    rw [hhist]
    exact getD_append_replicate_lt H 0 N k (k - 1) (by omega) _
  have hgetR : hist.getD (k + 1) 0 = N := by
    rw [hhist, getD_append_replicate_succ]
    cases m with
    | zero => omega
    | succ m2 => simp [List.replicate_succ]
  have hnostep : ¬(2 * (N : ℚ) < ((N : ℚ))) := by
    push_neg
    have hN0 : (0 : ℚ) ≤ (N : ℚ) := Nat.cast_nonneg N
    linarith
  have hscanL : scanAux (padHist hist) (2 * (acc / ws)) (k : ℤ) (-1) (f + 1) 0 =
      (.ok 0, [((k : ℤ) - 1)]) := by
    have hpos : (k : ℤ) + (-1) * ((0 : ℤ) + 1) = ((k - 1 : ℕ) : ℤ) := by
      push_cast [Nat.cast_sub (by omega : 1 ≤ k)]
      ring
    have hget := pyGet_padHist hist (k - 1) (by omega)
    rw [hgetL] at hget
    simp only [scanAux, Nat.cast_zero, hpos, hget]
    rw [hthr, if_neg (by push_cast; exact hnostep)]
    have : ((k - 1 : ℕ) : ℤ) = (k : ℤ) - 1 := by omega
    rw [this]
  have hscanR : scanAux (padHist hist) (2 * (acc / ws)) (k : ℤ) 1 (f + 1) 0 =
      (.ok 0, [((k : ℤ) + 1)]) := by
    have hpos : (k : ℤ) + 1 * ((0 : ℤ) + 1) = ((k + 1 : ℕ) : ℤ) := by push_cast; ring
    have hget := pyGet_padHist hist (k + 1) (by omega)
    rw [hgetR] at hget
    simp only [scanAux, Nat.cast_zero, hpos, hget]
    rw [hthr, if_neg (by push_cast; exact hnostep)]
    push_cast
    ring_nf
  have hwin : pySlice (padHist hist) (-(((0 : ℕ) : ℤ)) + (k : ℕ))
      (((0 : ℕ) : ℤ) + 1 + (k : ℕ)) = [(H : ℤ)] := by
    have h1 : (-(((0 : ℕ) : ℤ)) + (k : ℕ)) = ((k : ℕ) : ℤ) := by push_cast; ring
    have h2 : (((0 : ℕ) : ℤ) + 1 + (k : ℕ)) = ((k : ℕ) : ℤ) + 1 := by push_cast; ring
    rw [h1, h2, pySlice_singleton (padHist hist) k (0 : ℤ) (by
      simp only [padHist, List.length_append, List.length_map]
      omega)]
    congr 1
    rw [hsplit]
    exact getD_append_replicate_mid _ _ _ k _
  simp only [peakLocator]
  rw [hpam, hscanL, hscanR]
  dsimp only []
  rw [hmax]
  simp only [Nat.cast_zero, neg_zero] at hwin ⊢
  rw [hwin]

/-- Witness for C5: spike height 3 over noise 1 at position 1 of `[1,3,1]`,
with `acc/ws = 2/2 = 1`. -/
theorem peak_locator_spike_witness :
    peakLocator (List.replicate 1 1 ++ 3 :: List.replicate 1 1) 2 2 1 =
      some ⟨(3 : ℤ), 1, 0, 0, [(3 : ℤ)]⟩ := by
  exact peak_locator_spike 1 3 1 1 2 2 1 (by norm_num) (by norm_num)
    (by norm_num) (by norm_num) (by norm_num)

/-- Helper for C6: any state reached through `ltRun` keeps its accumulated
integration time strictly below a positive threshold. -/
theorem ltRun_inttime_lt (avgtime : ℚ) (hpos : 0 < avgtime) :
    ∀ (L : List CycleStats) (st0 st : LTState) (rows : List LTRow),
      st0.inttime < avgtime → ltRun avgtime L st0 = .ok (st, rows) →
      st.inttime < avgtime := by
  intro L
  induction L with
  | nil =>
    intro st0 st rows h0 h
    simp only [ltRun, Except.ok.injEq, Prod.mk.injEq] at h
    obtain ⟨rfl, -⟩ := h
    exact h0
  | cons c rest ih =>
    intro st0 st rows h0 h
    simp only [ltRun] at h
    cases hstep : ltStep avgtime st0 c with
    | error e => rw [hstep] at h; exact absurd h (by simp)
    | ok pr =>
      obtain ⟨st1, orow⟩ := pr
      rw [hstep] at h
      dsimp only [] at h
      have h1 : st1.inttime < avgtime := by
        simp only [ltStep] at hstep
        split at hstep
        · split at hstep
          · exact absurd hstep (by simp)
          · simp only [Except.ok.injEq, Prod.mk.injEq] at hstep
            obtain ⟨rfl, -⟩ := hstep
            simpa [LTState.zero] using hpos
        · simp only [Except.ok.injEq, Prod.mk.injEq] at hstep
          obtain ⟨rfl, -⟩ := hstep
          exact not_le.mp (by assumption)
      cases hrun : ltRun avgtime rest st1 with
      | error e => rw [hrun] at h; exact absurd h (by simp)
      | ok pr2 =>
        obtain ⟨st2, rows2⟩ := pr2
        rw [hrun] at h
        dsimp only [] at h
        simp only [Except.ok.injEq, Prod.mk.injEq] at h
        obtain ⟨rfl, -⟩ := h
        exact ih st1 st2 rows2 h1 hrun

/-- Helper for C6: a run whose proper prefixes all stay below the threshold
and whose total crosses it emits exactly one row at the end, holding the
averages of the accumulated sums, and leaves the reset state. -/
theorem ltRun_segment (avgtime : ℚ) :
    ∀ (L : List CycleStats) (st0 st : LTState) (rows : List LTRow),
      L ≠ [] →
      (∀ k, k < L.length →
        st0.inttime + ((L.take k).map CycleStats.inttime).sum < avgtime) →
      avgtime ≤ st0.inttime + (L.map CycleStats.inttime).sum →
      ltRun avgtime L st0 = .ok (st, rows) →
      st = LTState.zero ∧
      ∃ row, rows = [row] ∧
        row.inttime = st0.inttime + (L.map CycleStats.inttime).sum ∧
        row.p = (st0.pairs + (L.map CycleStats.pairs).sum) / ((st0.count : ℚ) + (L.length : ℚ)) ∧
        row.acc = (st0.acc + (L.map CycleStats.acc).sum) / ((st0.count : ℚ) + (L.length : ℚ)) ∧
        row.s1 = (st0.s1 + (L.map CycleStats.s1).sum) / ((st0.count : ℚ) + (L.length : ℚ)) ∧
        row.s2 = (st0.s2 + (L.map CycleStats.s2).sum) / ((st0.count : ℚ) + (L.length : ℚ)) := by
  intro L
  induction L with
  | nil => intro st0 st rows hne; exact absurd rfl hne
  | cons c rest ih =>
    intro st0 st rows hne hpre htot h
    simp only [ltRun] at h
    cases rest with
    | nil =>
      have htrig : avgtime ≤ (st0.add c).inttime := by
        simpa [LTState.add] using htot
      simp only [ltStep, if_pos htrig] at h
      cases hre : ltRowEffs ((st0.add c).pairs / ((st0.add c).count : ℚ))
          ((st0.add c).s1 / ((st0.add c).count : ℚ))
          ((st0.add c).s2 / ((st0.add c).count : ℚ)) with
      | error e => rw [hre] at h; exact absurd h (by simp)
      | ok pr =>
        obtain ⟨e1, e2⟩ := pr
        rw [hre] at h
        simp only [ltRun, Option.toList_some, List.append_nil,
          Except.ok.injEq, Prod.mk.injEq] at h
        obtain ⟨rfl, hrows⟩ := h
        subst hrows
        refine ⟨rfl, _, rfl, ?_, ?_, ?_, ?_, ?_⟩ <;>
          simp only [LTState.add, List.map_cons, List.map_nil, List.sum_cons,
            List.sum_nil, List.length_cons, List.length_nil] <;>
          push_cast <;> ring
    | cons c2 rest2 =>
      have hnt : ¬avgtime ≤ (st0.add c).inttime := by
        have h1 := hpre 1 (by simp)
        simp only [List.take_succ_cons, List.take_zero, List.map_cons, List.map_nil,
          List.sum_cons, List.sum_nil, add_zero] at h1
        exact not_le.mpr (by simpa [LTState.add, add_assoc] using h1)
      simp only [ltStep, if_neg hnt] at h
      cases hrun : ltRun avgtime (c2 :: rest2) (st0.add c) with
      | error e => rw [hrun] at h; exact absurd h (by simp)
      | ok pr =>
        obtain ⟨st2, rows2⟩ := pr
        rw [hrun] at h
        simp only [Option.toList_none, List.nil_append,
          Except.ok.injEq, Prod.mk.injEq] at h
        obtain ⟨rfl, rfl⟩ := h
        have hpre2 : ∀ k, k < (c2 :: rest2).length →
            (st0.add c).inttime + (((c2 :: rest2).take k).map CycleStats.inttime).sum < avgtime := by
          intro k hk
          have hk1 := hpre (k + 1) (by simpa using Nat.succ_lt_succ hk)
          simp only [List.take_succ_cons, List.map_cons, List.sum_cons] at hk1
          simpa [LTState.add, add_assoc] using hk1
        have htot2 : avgtime ≤ (st0.add c).inttime + ((c2 :: rest2).map CycleStats.inttime).sum := by
          simp only [List.map_cons, List.sum_cons] at htot
          simpa [LTState.add, add_assoc] using htot
        obtain ⟨hst, row, hrows, hit, hp, hacc, hs1, hs2⟩ :=
          ih (st0.add c) st2 rows2 (by simp) hpre2 htot2 hrun
        refine ⟨hst, row, hrows, ?_, ?_, ?_, ?_, ?_⟩
        · rw [hit]; simp only [LTState.add, List.map_cons, List.sum_cons]; ring
        · rw [hp]; simp only [LTState.add, List.map_cons, List.sum_cons,
            List.length_cons]; push_cast; ring
        · rw [hacc]; simp only [LTState.add, List.map_cons, List.sum_cons,
            List.length_cons]; push_cast; ring
        · rw [hs1]; simp only [LTState.add, List.map_cons, List.sum_cons,
            List.length_cons]; push_cast; ring
        · rw [hs2]; simp only [LTState.add, List.map_cons, List.sum_cons,
            List.length_cons]; push_cast; ring

/-! ### C6: long-term reset and averaging -/

/-- C6: starting from the zero accumulator, the accumulated integration time
stays strictly below a positive threshold after every processed sample
(reset happens exactly at crossing), and a run whose proper prefixes stay
below the threshold while its total crosses it ends reset to zero having
emitted one row whose averaged pair count (and accidentals and singles) is
the accumulated sum divided by the number of accumulated cycles. -/
theorem longterm_reset_and_average (avgtime : ℚ) (L : List CycleStats) :
    (0 < avgtime → ∀ st rows, ltRun avgtime L LTState.zero = .ok (st, rows) →
      st.inttime < avgtime) ∧
    (L ≠ [] →
      (∀ k, k < L.length → ((L.take k).map CycleStats.inttime).sum < avgtime) →
      avgtime ≤ (L.map CycleStats.inttime).sum →
      ∀ st rows, ltRun avgtime L LTState.zero = .ok (st, rows) →
        st = LTState.zero ∧
        ∃ row, rows = [row] ∧
          row.inttime = (L.map CycleStats.inttime).sum ∧
          row.p = (L.map CycleStats.pairs).sum / (L.length : ℚ) ∧
          row.acc = (L.map CycleStats.acc).sum / (L.length : ℚ) ∧
          row.s1 = (L.map CycleStats.s1).sum / (L.length : ℚ) ∧
          row.s2 = (L.map CycleStats.s2).sum / (L.length : ℚ)) := by
  constructor
  · intro hpos st rows h
    exact ltRun_inttime_lt avgtime hpos L LTState.zero st rows
      (by simpa [LTState.zero] using hpos) h
  · intro hne hpre htot st rows h
    have hseg := ltRun_segment avgtime L LTState.zero st rows hne
      (by simpa [LTState.zero] using hpre) (by simpa [LTState.zero] using htot) h
    simpa [LTState.zero] using hseg

/-- Witness for C6: two cycles of `ltL0` cross the 2 s threshold on the
second cycle, emitting one averaged row and resetting the accumulator. -/
theorem longterm_reset_and_average_witness :
    ltRun 2 ltL0 LTState.zero = .ok (LTState.zero, [ltRow0]) ∧
    LTState.zero.inttime < 2 ∧
    ltRow0.p = (ltL0.map CycleStats.pairs).sum / (ltL0.length : ℚ) := by
  have hrun : ltRun 2 ltL0 LTState.zero = .ok (LTState.zero, [ltRow0]) := by
    norm_num [ltRun, ltStep, ltRowEffs, LTState.add, LTState.zero, ltL0, ltRow0,
      Option.toList]
  have h1 := (longterm_reset_and_average 2 ltL0).1 (by norm_num) LTState.zero [ltRow0] hrun
  have h2 := (longterm_reset_and_average 2 ltL0).2 (by simp [ltL0])
    (by intro k hk; simp only [ltL0, List.length_cons, List.length_nil] at hk
        interval_cases k <;> norm_num [ltL0])
    (by norm_num [ltL0]) LTState.zero [ltRow0] hrun
  obtain ⟨-, row, hrow, -, hp, -⟩ := h2
  obtain rfl : ltRow0 = row := by simpa using hrow
  exact ⟨hrun, h1, hp⟩

/-- Witness for C10: a zero averaged `s2` aborts with the division error,
and the row from the negative-pairs cycle `cNeg` shows an unclamped
negative efficiency. -/
theorem longterm_row_no_guard_witness :
    ltStep 1 LTState.zero ⟨1, 1, 0, 1, 0⟩ = .error .divByZero ∧
    (ltRowNeg.e1 = 100 * ltRowNeg.p / ltRowNeg.s2 ∧ ltRowNeg.e1 < 0) := by
  constructor
  · exact (longterm_row_no_guard 1 LTState.zero ⟨1, 1, 0, 1, 0⟩).1
      (by norm_num [LTState.add, LTState.zero]) (by norm_num [LTState.add, LTState.zero])
  · have hstep : ltStep 1 LTState.zero cNeg = .ok (LTState.zero, some ltRowNeg) := by
      norm_num [ltStep, ltRowEffs, LTState.add, LTState.zero, cNeg, ltRowNeg]
    have h := (longterm_row_no_guard 1 LTState.zero cNeg).2.1 LTState.zero ltRowNeg hstep
    exact ⟨h.1, h.2.2 (by norm_num [ltRowNeg]) (by norm_num [ltRowNeg])⟩

end IE
